import Mathlib

/-!
Verification development for the `spoken-evaluate` repository.

The inspected sources are:
  * `sdk/js/index.js` — the unified-reference-fetch JavaScript SDK
    (`SpokenEvaluateClient` with `evaluationMode` / `voiceType`);
  * an unnamed earlier SDK variant (`src/unnamed/part_000`) — the
    direct-reference-audio JavaScript SDK (`SpokenEvaluateClient` with
    `referenceAudio`);
  * `frontend/src/App.jsx` — the React form and result view.

The Python backend (the Pronunciation Alignment & Scoring Engine) is not
present in the inspected sources; where a property depends on it, the
engine is modelled from the specification, and each such definition says
so in its doc comment.

JavaScript values are embedded shallowly: a possibly-absent field is an
`Option`, a `Blob`/`File` is a record carrying its byte size (a Blob
object is always truthy in JS, so presence is the `Option` layer),
strings are Lean `String`s (ASCII-faithful for the case/trim operations
used by the code), and a function that can `throw` returns
`Except String _`.  An `async` network round-trip is split into the pure
request-construction step (returning the request object handed to
`fetch`) and the pure response-handling step.
-/

/-! ## JavaScript string primitives used by the sources -/

/-- JS `Blob` / `File`: only its byte size matters to the claims.
A `Blob` object is always truthy; absence is modelled by `Option`. -/
structure JsBlob where
  size : Nat
deriving DecidableEq, Repr

/-- JS falsiness of a possibly-absent string: `undefined`, `null` and
`""` are falsy. -/
def jsStrFalsy : Option String → Bool
  | none => true
  | some s => s = ""

/-- JS `String.prototype.toUpperCase`, restricted to the ASCII range the
sources use (mode names are ASCII). -/
def jsToUpper (s : String) : String :=
  ⟨s.data.map Char.toUpper⟩

/-- ASCII whitespace, as trimmed by JS `String.prototype.trim`. -/
def isWsp (c : Char) : Bool :=
  c = ' ' ∨ c = '\t' ∨ c = '\n' ∨ c = '\r'

/-- JS `String.prototype.trim` (ASCII whitespace model). -/
def jsTrim (s : String) : String :=
  ⟨((s.data.dropWhile isWsp).reverse.dropWhile isWsp).reverse⟩

/-- First-occurrence replacement on character lists, the semantics of JS
`String.prototype.replace` with a (non-empty) string pattern. -/
def replaceFirstAux : List Char → List Char → List Char → List Char
  | [], _, _ => []
  | c :: cs, pat, rep =>
    if pat.isPrefixOf (c :: cs) then rep ++ (c :: cs).drop pat.length
    else c :: replaceFirstAux cs pat rep

/-- JS `s.replace(pat, rep)` for a string pattern `pat ≠ ""`. -/
def jsReplaceFirst (s pat rep : String) : String :=
  ⟨replaceFirstAux s.data pat.data rep.data⟩

/-- Substring containment on character lists. -/
def containsSub : List Char → List Char → Bool
  | [], pat => pat.isEmpty
  | c :: cs, pat => pat.isPrefixOf (c :: cs) || containsSub cs pat

/-- Substring containment on strings (JS `String.prototype.includes`). -/
def jsIncludes (s pat : String) : Bool :=
  containsSub s.data pat.data

/-- Removal of one trailing `/` from a character list. -/
def stripSlashList (l : List Char) : List Char :=
  if l.getLast? = some '/' then l.dropLast else l

/-- JS `baseUrl.replace(/\/$/, "")` — strips exactly one trailing `/`
(the constructor of both SDK variants, `index.js` line 17). -/
def stripTrailingSlash (s : String) : String :=
  ⟨stripSlashList s.data⟩

/-- `SpokenEvaluateClient` constructor (`index.js` lines 16–19, same in
both SDK variants): `this.baseUrl = (options.baseUrl || "").replace(/\/$/, "")`. -/
def mkBaseUrl (baseUrlOption : Option String) : String :=
  stripTrailingSlash (match baseUrlOption with | none => "" | some s => s)

/-- The URL handed to `fetch` by `evaluate` (`index.js` line 53 /
`part_000` line 39): `` `${this.baseUrl}/api/evaluate`.replace("//api", "/api") ``. -/
def evaluateUrl (baseUrl : String) : String :=
  jsReplaceFirst (baseUrl ++ "/api/evaluate") "//api" "/api"

/-! ## The unified SDK (`sdk/js/index.js`) -/

/-- The `payload` argument of the unified SDK's `evaluate`; every field
can be absent. -/
structure UnifiedPayload where
  referenceText : Option String
  userAudio : Option JsBlob
  evaluationMode : Option String
  voiceType : Option Int
deriving Repr

/-- The multipart request the unified SDK hands to `fetch` on success:
the `FormData` fields of `index.js` lines 47–51 plus the URL. -/
structure UnifiedRequest where
  url : String
  reference_text : String
  user_audio : JsBlob
  evaluation_mode : String
  voice_type : String
deriving DecidableEq, Repr

namespace UnifiedSDK

/-- `SpokenEvaluateClient.evaluate` of `sdk/js/index.js` (lines 24–57),
up to the `fetch` call: validation, defaulting and request construction.
`Except.error` is a thrown `Error` (no network request is issued);
`Except.ok` carries the request object given to `fetch`. -/
def evaluate (baseUrl : String) (p : UnifiedPayload) : Except String UnifiedRequest :=
  if jsStrFalsy p.referenceText then Except.error "缺少 referenceText 字段"
  else if p.userAudio.isNone then Except.error "缺少 userAudio 文件"
  else
    let voiceType : Int := match p.voiceType with | none => 2 | some v => v
    if voiceType ≠ 1 ∧ voiceType ≠ 2 then
      Except.error "voiceType 仅支持 1 (UK) 或 2 (US)"
    else
      let rawMode : String := match p.evaluationMode with | none => "WORD" | some m => m
      let normalizedMode := jsToUpper (if rawMode = "" then "WORD" else rawMode)
      if normalizedMode ≠ "WORD" ∧ normalizedMode ≠ "SENTENCE" then
        Except.error "evaluationMode 仅支持 WORD 或 SENTENCE"
      else
        Except.ok
          { url := evaluateUrl baseUrl
            reference_text := match p.referenceText with | none => "" | some s => s
            user_audio := match p.userAudio with | none => ⟨0⟩ | some b => b
            evaluation_mode := normalizedMode
            voice_type := toString voiceType }

end UnifiedSDK

/-! ## The legacy direct-reference-audio SDK (`src/unnamed/part_000`) -/

/-- The `payload` argument of the legacy SDK's `evaluate`. -/
structure LegacyPayload where
  referenceText : Option String
  referenceAudio : Option JsBlob
  userAudio : Option JsBlob
deriving Repr

/-- The multipart request the legacy SDK hands to `fetch`
(`part_000` lines 34–37). -/
structure LegacyRequest where
  url : String
  reference_text : String
  reference_audio : JsBlob
  user_audio : JsBlob
deriving DecidableEq, Repr

namespace LegacySDK

/-- `SpokenEvaluateClient.evaluate` of `src/unnamed/part_000`
(lines 24–43), up to the `fetch` call.  Note: no check on
`referenceText`; it is forwarded as `referenceText || ""`. -/
def evaluate (baseUrl : String) (p : LegacyPayload) : Except String LegacyRequest :=
  if p.referenceAudio.isNone then Except.error "缺少 referenceAudio 文件"
  else if p.userAudio.isNone then Except.error "缺少 userAudio 文件"
  else
    Except.ok
      { url := evaluateUrl baseUrl
        reference_text := match p.referenceText with | none => "" | some s => s
        reference_audio := match p.referenceAudio with | none => ⟨0⟩ | some b => b
        user_audio := match p.userAudio with | none => ⟨0⟩ | some b => b }

end LegacySDK

/-! ## SDK response handling (`index.js` lines 59–70 / `part_000` 45–56) -/

/-- The slice of a parsed JSON response body that the SDK touches: its
optional `detail` field (modelled as an optional string; a JS-falsy
`detail` is `none` or `some ""`). -/
structure JsonBody where
  detail : Option String
deriving DecidableEq, Repr

/-- An HTTP response as the SDK observes it: the `ok` flag, and the
parsed body when `response.json()` succeeds (`none` when the body is not
valid JSON, in which case `response.json()` rejects). -/
structure HttpResponse where
  ok : Bool
  body : Option JsonBody
deriving DecidableEq, Repr

/-- The response-handling tail of both SDKs' `evaluate`: on `!ok`, throw
an `Error` whose message is the body's truthy `detail` when the body
parses as JSON, and the fixed fallback `"请求失败"` otherwise; on `ok`,
return `response.json()`. -/
def handleResponse (r : HttpResponse) : Except String JsonBody :=
  if r.ok = false then
    Except.error
      (match r.body with
        | none => "请求失败"
        | some b =>
          match b.detail with
          | none => "请求失败"
          | some d => if d = "" then "请求失败" else d)
  else
    match r.body with
    | none => Except.error "JSON 解析失败"
    | some b => Except.ok b

/-! ## The frontend submit handler (`frontend/src/App.jsx`, lines 92–134) -/

/-- The component state `handleSubmit` reads. -/
structure SubmitState where
  referenceText : String
  referenceAudio : Option JsBlob
  userAudio : Option JsBlob
deriving Repr

/-- The multipart request the frontend hands to `fetch`
(`App.jsx` lines 108–113). -/
structure FrontendRequest where
  url : String
  reference_text : String
  reference_audio : JsBlob
  user_audio : JsBlob
deriving DecidableEq, Repr

/-- Outcome of `handleSubmit`: either an early return that sets an error
message and never calls `fetch` (so `result` is left untouched), or a
request submitted to the backend. -/
inductive SubmitOutcome where
  | rejected (errorMsg : String)
  | submitted (request : FrontendRequest)
deriving DecidableEq, Repr

/-- `handleSubmit` of `App.jsx` (lines 92–134) up to the `fetch` call:
the two early-return guards, then request construction with the
`referenceText.trim() || "Hello"` fallback (line 109). -/
def handleSubmit (apiBaseUrl : String) (s : SubmitState) : SubmitOutcome :=
  if s.referenceAudio.isNone then SubmitOutcome.rejected "请先上传参考音频文件。"
  else if s.userAudio.isNone then SubmitOutcome.rejected "请录制或上传用户音频文件。"
  else
    let trimmed := jsTrim s.referenceText
    SubmitOutcome.submitted
      { url := evaluateUrl apiBaseUrl
        reference_text := if trimmed = "" then "Hello" else trimmed
        reference_audio := match s.referenceAudio with | none => ⟨0⟩ | some b => b
        user_audio := match s.userAudio with | none => ⟨0⟩ | some b => b }

/-! ## The engine data model

Modelled from the spec: the backend scoring engine is not among the
inspected sources; the definitions below follow spec sections 3–4
(Signal Loader, Feature Extractor, DTW Aligner, Unit Segmenter, Scorer,
Mode Dispatcher).  Where the spec leaves a constant or formula open as a
declared design parameter (MFCC computation, exact normalizations,
weights), a fixed executable stand-in is used and documented. -/

/-- Evaluation mode (`WORD` | `SENTENCE`), spec section 6. -/
inductive Mode where
  | WORD
  | SENTENCE
deriving DecidableEq, Repr

/-- Modelled from the spec (section 3): a decoded mono audio signal at
the fixed target sample rate. -/
structure AudioSignal where
  sampleRate : Nat
  samples : List ℚ
deriving Repr

/-- Modelled from the spec (section 3): one feature frame = MFCC vector,
scalar energy, and a pitch estimate with a distinct unvoiced marker
(`none`), spec section 4.2. -/
structure FeatureFrame where
  mfcc : List ℚ
  energy : ℚ
  pitch : Option ℚ
deriving Repr

instance : Inhabited FeatureFrame := ⟨⟨[], 0, none⟩⟩

/-- Modelled from the spec (section 7): the engine error taxonomy
(the members the claims mention). -/
inductive EngineError where
  | inputValidation (msg : String)
  | featureExtraction (msg : String)
deriving DecidableEq, Repr

/-- Modelled from the spec (section 6): the optional transcript record
produced by the external ASR step. -/
structure Transcript where
  text : String
  confidence : ℚ
deriving DecidableEq, Repr

/-- Per-unit score record (spec section 3, UnitScore). -/
structure UnitScore where
  symbol : String
  frame_start : Nat
  frame_end : Nat
  score : ℚ
deriving DecidableEq, Repr

/-- WORD-mode result block (spec section 6). -/
structure WordResult where
  character_scores : List UnitScore
  mfcc_score : ℚ
  energy_score : ℚ
  pitch_score : ℚ
  composite_score : ℚ
  overall_score : ℚ
deriving Repr

/-- SENTENCE-mode result block (spec section 6). -/
structure SentenceResult where
  word_scores : List UnitScore
  pronunciation_score : ℚ
  fluency_score : ℚ
  word_total_score : ℚ
  overall_score : ℚ
deriving Repr

/-- Top-level evaluation result (spec sections 3 and 6). -/
structure EvaluationResult where
  mode : Mode
  word_result : Option WordResult
  sentence_result : Option SentenceResult
  transcript : Option Transcript
deriving Repr

/-! ## Feature extraction (spec sections 4.1–4.2) -/

/-- Fixed frame window length in samples (configuration constant,
spec section 4.2). -/
def windowLen : Nat := 400

/-- Fixed hop length in samples (configuration constant). -/
def hopLen : Nat := 160

/-- Fixed MFCC dimensionality D (configuration constant). -/
def numCoeffs : Nat := 13

/-- Voicing energy threshold (configuration constant). -/
def voicedThreshold : ℚ := 1/100

/-- Successive analysis windows of `windowLen` samples at hop `hopLen`. -/
def extractWindows (s : List ℚ) : List (List ℚ) :=
  if s.length < windowLen then []
  else s.take windowLen :: extractWindows (s.drop hopLen)
termination_by s.length
decreasing_by
  simp only [List.length_drop, windowLen, hopLen] at *
  omega

/-- Modelled from the spec: zero-crossing count, the executable stand-in
for the per-frame fundamental-frequency estimate. -/
def pitchEstimate (w : List ℚ) : ℚ :=
  ((w.zip w.tail).filter (fun p => p.1 * p.2 < 0)).length

/-- Modelled from the spec: one feature frame from one analysis window.
The spec leaves the MFCC computation an open design parameter
(section 9); the stand-in takes the first `numCoeffs` window samples as
the fixed-dimensionality vector.  Energy is mean squared amplitude;
frames below the voicing threshold carry the distinct unvoiced marker. -/
def mkFrame (w : List ℚ) : FeatureFrame :=
  let energy := ((w.map (fun x => x * x)).sum) / (windowLen : ℚ)
  { mfcc := w.take numCoeffs
    energy := energy
    pitch := if voicedThreshold < energy then some (pitchEstimate w) else none }

/-- Modelled from the spec (section 4.2): Feature Extractor; fails with
`FeatureExtractionError` when the signal is shorter than one window. -/
def featureSeq (sig : AudioSignal) : Except EngineError (List FeatureFrame) :=
  if sig.samples.length < windowLen then
    Except.error (EngineError.featureExtraction "signal shorter than one frame window")
  else
    Except.ok ((extractWindows sig.samples).map mkFrame)

/-! ## The DTW aligner (spec section 4.3) -/

/-- Local cost between two frames: squared Euclidean distance over the
MFCC vectors (the fixed, documented distance choice). -/
def localCost (a b : FeatureFrame) : ℚ :=
  ((a.mfcc.zip b.mfcc).map (fun p => (p.1 - p.2) * (p.1 - p.2))).sum

/-- Modelled from the spec (section 4.3): cumulative DTW cost of the
best path from cell `(0,0)` to cell `(i,j)`, with the three canonical
transitions (diagonal, vertical, horizontal). -/
def cumCost (d : Nat → Nat → ℚ) : Nat → Nat → ℚ
  | 0, 0 => d 0 0
  | i + 1, 0 => cumCost d i 0 + d (i + 1) 0
  | 0, j + 1 => cumCost d 0 j + d 0 (j + 1)
  | i + 1, j + 1 =>
    min (cumCost d i j) (min (cumCost d i (j + 1)) (cumCost d (i + 1) j)) + d (i + 1) (j + 1)
termination_by i j => (i, j)

/-- Modelled from the spec (section 4.3): path recovery by backtracking
from cell `(i,j)` to the origin, preferring the diagonal transition on
ties.  Returns the path in forward (time) order. -/
def backtrack (d : Nat → Nat → ℚ) : Nat → Nat → List (Nat × Nat)
  | 0, 0 => [(0, 0)]
  | i + 1, 0 => backtrack d i 0 ++ [(i + 1, 0)]
  | 0, j + 1 => backtrack d 0 j ++ [(0, j + 1)]
  | i + 1, j + 1 =>
    let diag := cumCost d i j
    let vert := cumCost d i (j + 1)
    let horiz := cumCost d (i + 1) j
    if diag ≤ vert ∧ diag ≤ horiz then backtrack d i j ++ [(i + 1, j + 1)]
    else if vert ≤ horiz then backtrack d i (j + 1) ++ [(i + 1, j + 1)]
    else backtrack d (i + 1) j ++ [(i + 1, j + 1)]
termination_by i j => (i, j)

/-- The frame-to-frame local cost function of a reference/candidate pair. -/
def frameDist (refF candF : List FeatureFrame) (i j : Nat) : ℚ :=
  localCost (refF.getD i default) (candF.getD j default)

/-- The alignment path of a reference/candidate pair. -/
def dtwPath (refF candF : List FeatureFrame) : List (Nat × Nat) :=
  backtrack (frameDist refF candF) (refF.length - 1) (candF.length - 1)

/-- Modelled from the spec (section 4.3): Sequence Aligner; alignment of
an empty sequence fails, otherwise full (unbanded) DTW returns the
alignment path and the total path cost. -/
def dtwAlign (refF candF : List FeatureFrame) : Option (List (Nat × Nat) × ℚ) :=
  match refF, candF with
  | [], _ => none
  | _, [] => none
  | _ :: _, _ :: _ =>
    some (dtwPath refF candF,
      cumCost (frameDist refF candF) (refF.length - 1) (candF.length - 1))

/-! ## The unit segmenter (spec section 4.4) -/

/-- Scoring units derived from the reference text: characters in WORD
mode, whitespace-separated words in SENTENCE mode (spec section 4.4). -/
def splitUnits (mode : Mode) (text : String) : List String :=
  match mode with
  | Mode.WORD => text.data.map (fun c => String.mk [c])
  | Mode.SENTENCE => (text.splitOn " ").filter (fun w => w ≠ "")

/-- Modelled from the spec (section 4.4): boundary allocation of the
`f` reference frames to units, proportional to unit character length
relative to total reference length.  Unit `i` covers the half-open frame
range from `cum i * f / total` to `cum (i+1) * f / total`. -/
def unitRanges (units : List String) (f : Nat) : List (Nat × Nat) :=
  let lens := units.map String.length
  let total := lens.sum
  let cums := lens.scanl (fun a b => a + b) 0
  let bound := fun c => if total = 0 then 0 else c * f / total
  (cums.zip cums.tail).map (fun p => (bound p.1, bound p.2))

/-- Modelled from the spec (section 4.4): the candidate frames aligned
to a unit's reference frame range `[r.1, r.2)`, collected through the
alignment path. -/
def projectUnit (path : List (Nat × Nat)) (r : Nat × Nat) : List Nat :=
  (path.filter (fun p => decide (r.1 ≤ p.1) && decide (p.1 < r.2))).map (fun p => p.2)

/-! ## The scorer (spec section 4.5) -/

/-- Every score is clamped to the closed interval `[0, 100]`. -/
def clampScore (x : ℚ) : ℚ :=
  max 0 (min 100 x)

/-- A division whose zero-denominator case is `none` (JS `NaN` /
`undefined`); a `none` intermediate ratio is absorbed as score 0. -/
def safeDiv (a b : ℚ) : Option ℚ :=
  if b = 0 then none else some (a / b)

/-- Normalized inverse of a mean local distance, mapped to `[0,100]`
(spec section 4.5(a); exact normalization is a documented stand-in). -/
def invDistScore (m : ℚ) : ℚ :=
  clampScore (100 / (1 + max 0 m))

/-- Score of a ratio `a / b` penalizing both directions of deviation
from 1 (spec section 4.5(b)–(c)); an undefined or non-positive ratio is
absorbed as 0. -/
def ratioTermScore (a b : ℚ) : ℚ :=
  match safeDiv a b with
  | none => 0
  | some r => if r ≤ 0 then 0 else clampScore (100 * min r (1 / r))

/-- Mean of a list of rationals, `none` on the empty list. -/
def meanQ (l : List ℚ) : Option ℚ :=
  safeDiv l.sum (l.length : ℚ)

/-- Spec section 4.5(a): normalized inverse of the mean local MFCC
distance along an aligned sub-path; an empty sub-path is absorbed as 0. -/
def mfccTerm (refF candF : List FeatureFrame) (pairs : List (Nat × Nat)) : ℚ :=
  match meanQ (pairs.map (fun p => frameDist refF candF p.1 p.2)) with
  | none => 0
  | some m => invDistScore m

/-- Spec section 4.5(b): energy-ratio term over two frame slices. -/
def energyTerm (refSlice candSlice : List FeatureFrame) : ℚ :=
  match meanQ (refSlice.map (fun fr => fr.energy)), meanQ (candSlice.map (fun fr => fr.energy)) with
  | some re, some ce => ratioTermScore ce re
  | _, _ => 0

/-- Spec section 4.5(c): duration-ratio term between candidate-range and
reference-range length. -/
def durationTerm (refLen candLen : Nat) : ℚ :=
  ratioTermScore (candLen : ℚ) (refLen : ℚ)

/-- Spec section 4.5(d): pitch-deviation term over the aligned pairs in
which both frames are voiced; no voiced pair is absorbed as 0. -/
def pitchTerm (refF candF : List FeatureFrame) (pairs : List (Nat × Nat)) : ℚ :=
  let devs := pairs.filterMap (fun p =>
    match (refF.getD p.1 default).pitch, (candF.getD p.2 default).pitch with
    | some a, some b => some |a - b|
    | _, _ => none)
  match meanQ devs with
  | none => 0
  | some m => invDistScore m

/-- Fixed per-term weights (configuration constants, spec section 4.5):
MFCC 2/5, energy 1/5, duration 1/5, pitch 1/5; they sum to 1. -/
def wMfcc : ℚ := 2/5
def wEnergy : ℚ := 1/5
def wDuration : ℚ := 1/5
def wPitch : ℚ := 1/5

/-- Fixed weighted sum of the four per-term scores. -/
def weighted4 (a b c d : ℚ) : ℚ :=
  wMfcc * a + wEnergy * b + wDuration * c + wPitch * d

/-- Sub-list of frames in the half-open index range `[s, e)`. -/
def sliceFrames (l : List FeatureFrame) (s e : Nat) : List FeatureFrame :=
  (l.drop s).take (e - s)

/-- The minimum score (spec section 4.4: an empty candidate projection
is scored as the minimum score). -/
def minScore : ℚ := 0

/-- Modelled from the spec (sections 4.4–4.5): one UnitScore.  A unit
whose reference range projects to an empty candidate set receives the
sentinel empty range and the minimum score rather than being dropped;
otherwise the candidate range is `[min, max]` of the projection and the
score is the fixed weighted sum of the four per-term scores. -/
def scoreUnit (refF candF : List FeatureFrame) (path : List (Nat × Nat))
    (sym : String) (r : Nat × Nat) : UnitScore :=
  match projectUnit path r with
  | [] => { symbol := sym, frame_start := 0, frame_end := 0, score := minScore }
  | c :: cs =>
    let lo := cs.foldl Nat.min c
    let hi := cs.foldl Nat.max c
    let pairs := path.filter (fun p => decide (r.1 ≤ p.1) && decide (p.1 < r.2))
    let a := mfccTerm refF candF pairs
    let b := energyTerm (sliceFrames refF r.1 r.2) (sliceFrames candF lo (hi + 1))
    let cTerm := durationTerm (r.2 - r.1) (hi + 1 - lo)
    let dTerm := pitchTerm refF candF pairs
    { symbol := sym, frame_start := lo, frame_end := hi + 1,
      score := weighted4 a b cTerm dTerm }

/-- All UnitScores of a unit list: one per ScoringUnit, in order. -/
def scoreAllUnits (refF candF : List FeatureFrame) (path : List (Nat × Nat))
    (units : List String) : List UnitScore :=
  (units.zip (unitRanges units refF.length)).map
    (fun ur => scoreUnit refF candF path ur.1 ur.2)

/-! ## Whole-utterance aggregates and mode dispatch (spec sections 4.5–4.6) -/

/-- Aggregate weights for the WORD-mode overall score (configuration
constants): MFCC 1/2, energy 1/4, pitch 1/4. -/
def wOverallMfcc : ℚ := 1/2
def wOverallEnergy : ℚ := 1/4
def wOverallPitch : ℚ := 1/4

/-- Modelled from the spec: the WORD-mode result block; the aggregates
are the whole-utterance analogues of the per-unit terms, `overall_score`
the configured weighted combination of `mfcc_score`, `energy_score` and
`pitch_score` (spec section 8, example). -/
def wordResult (text : String) (refF candF : List FeatureFrame)
    (path : List (Nat × Nat)) : WordResult :=
  let units := splitUnits Mode.WORD text
  let m := mfccTerm refF candF path
  let e := energyTerm refF candF
  let p := pitchTerm refF candF path
  let d := durationTerm refF.length candF.length
  { character_scores := scoreAllUnits refF candF path units
    mfcc_score := m
    energy_score := e
    pitch_score := p
    composite_score := weighted4 m e d p
    overall_score := wOverallMfcc * m + wOverallEnergy * e + wOverallPitch * p }

/-- Aggregate weights for the SENTENCE-mode overall score (configuration
constants): pronunciation 3/5, fluency 1/5, word-coverage 1/5. -/
def wPron : ℚ := 3/5
def wFluency : ℚ := 1/5
def wCoverage : ℚ := 1/5

/-- Inter-word candidate timing gaps: the (non-negative) number of
frames between one word's candidate range end and the next word's
candidate range start. -/
def wordGaps (scores : List UnitScore) : List ℚ :=
  (scores.zip scores.tail).map (fun p => ((p.2.frame_start : ℚ) - (p.1.frame_end : ℚ)) ⊔ 0)

/-- Modelled from the spec: the SENTENCE-mode result block.
`pronunciation_score` is the mean of the word-level scores,
`fluency_score` penalizes large mean inter-word gaps, and
`word_total_score` is the fraction of words whose candidate projection
is non-empty and scored above the minimal-confidence threshold; every
undefined intermediate ratio is absorbed as 0. -/
def sentenceResult (text : String) (refF candF : List FeatureFrame)
    (path : List (Nat × Nat)) : SentenceResult :=
  let units := splitUnits Mode.SENTENCE text
  let scores := scoreAllUnits refF candF path units
  let pron := match meanQ (scores.map (fun u => u.score)) with
    | none => 0
    | some m => clampScore m
  let fluency := match meanQ (wordGaps scores) with
    | none => 0
    | some g => invDistScore g
  let recognized := scores.filter (fun u => decide (minScore < u.score))
  let coverage := match safeDiv (recognized.length : ℚ) (scores.length : ℚ) with
    | none => 0
    | some f => clampScore (100 * f)
  { word_scores := scores
    pronunciation_score := pron
    fluency_score := fluency
    word_total_score := coverage
    overall_score := wPron * pron + wFluency * fluency + wCoverage * coverage }

/-- Modelled from the spec (section 4.6): the Mode Dispatcher's result
assembly.  Transcript fusion is purely additive: the optional transcript
is attached and never influences the numeric fields. -/
def assembleScores (mode : Mode) (text : String) (refF candF : List FeatureFrame)
    (path : List (Nat × Nat)) (asr : Option Transcript) : EvaluationResult :=
  match mode with
  | Mode.WORD =>
    { mode := Mode.WORD
      word_result := some (wordResult text refF candF path)
      sentence_result := none
      transcript := asr }
  | Mode.SENTENCE =>
    { mode := Mode.SENTENCE
      word_result := none
      sentence_result := some (sentenceResult text refF candF path)
      transcript := asr }

/-- Modelled from the spec (sections 4.6 and 7): the engine pipeline.
Missing/zero-length user audio is rejected with `InputValidationError`
before any feature work; the externally produced ASR transcript is an
optional input fused only into the final result. -/
def engineEvaluate (mode : Mode) (text : String) (refSig userSig : AudioSignal)
    (asr : Option Transcript) : Except EngineError EvaluationResult :=
  if userSig.samples.isEmpty then
    Except.error (EngineError.inputValidation "missing or zero-length user audio")
  else if refSig.samples.isEmpty then
    Except.error (EngineError.inputValidation "missing or zero-length reference audio")
  else
    match featureSeq refSig, featureSeq userSig with
    | Except.error e, _ => Except.error e
    | _, Except.error e => Except.error e
    | Except.ok refF, Except.ok candF =>
      match dtwAlign refF candF with
      | none => Except.error (EngineError.featureExtraction "empty feature sequence")
      | some pr => Except.ok (assembleScores mode text refF candF pr.1 asr)

/-! ## Frontend transcript rendering (`App.jsx` lines 245–255) -/

/-- What the result card shows for the transcript area: either the
recognized-text block, or the non-error note that Whisper is absent
(`App.jsx` line 254) — there is no error alternative. -/
inductive TranscriptView where
  | shown (text : String) (confidence : Option ℚ)
  | whisperFallbackNote
deriving DecidableEq, Repr

/-- The render decision of `App.jsx` lines 245–255:
`result.transcript?.text ? <block> : <small>…</small>`. -/
def renderTranscript (t : Option Transcript) : TranscriptView :=
  match t with
  | some tr => if tr.text ≠ "" then TranscriptView.shown tr.text (some tr.confidence)
               else TranscriptView.whisperFallbackNote
  | none => TranscriptView.whisperFallbackNote

/-! ## Claim theorems -/

/-- **C2.** A request with missing or zero-length user audio fails with
an input-validation error before any feature work and no partial
`EvaluationResult` is constructed: the engine rejects a zero-length user
signal up front; each SDK's `evaluate` throws before issuing any network
call when `userAudio` is falsy; and the frontend submit handler returns
without sending a request and without setting a result. -/
theorem c2_missing_user_audio :
    (∀ (mode : Mode) (text : String) (refSig : AudioSignal) (sr : Nat)
        (asr : Option Transcript),
      engineEvaluate mode text refSig ⟨sr, []⟩ asr =
        Except.error (EngineError.inputValidation "missing or zero-length user audio")) ∧
    (∀ (b : String) (p : UnifiedPayload), p.userAudio = none →
      (UnifiedSDK.evaluate b p).isOk = false) ∧
    (∀ (b : String) (p : LegacyPayload), p.userAudio = none →
      (LegacySDK.evaluate b p).isOk = false) ∧
    (∀ (b : String) (s : SubmitState), s.userAudio = none →
      ∃ msg, handleSubmit b s = SubmitOutcome.rejected msg) := by
  refine ⟨fun _ _ _ _ _ => rfl, ?_, ?_, ?_⟩
  · intro b p h
    unfold UnifiedSDK.evaluate
    rw [h]
    split <;> rfl
  · intro b p h
    unfold LegacySDK.evaluate
    rw [h]
    split <;> rfl
  · intro b s h
    unfold handleSubmit
    rw [h]
    split
    · exact ⟨_, rfl⟩
    · exact ⟨_, rfl⟩

/-- Witness for C2 at concrete inputs. -/
theorem c2_missing_user_audio_witness :
    engineEvaluate Mode.WORD "Hello" ⟨16000, [1]⟩ ⟨16000, []⟩ none =
      Except.error (EngineError.inputValidation "missing or zero-length user audio") ∧
    (UnifiedSDK.evaluate ""
      { referenceText := some "Hi", userAudio := none,
        evaluationMode := none, voiceType := none }).isOk = false ∧
    (LegacySDK.evaluate ""
      { referenceText := some "Hi", referenceAudio := some ⟨9⟩,
        userAudio := none }).isOk = false ∧
    (∃ msg, handleSubmit ""
      { referenceText := "Hi", referenceAudio := some ⟨9⟩, userAudio := none } =
        SubmitOutcome.rejected msg) :=
  ⟨c2_missing_user_audio.1 Mode.WORD "Hello" ⟨16000, [1]⟩ 16000 none,
   c2_missing_user_audio.2.1 "" _ rfl,
   c2_missing_user_audio.2.2.1 "" _ rfl,
   c2_missing_user_audio.2.2.2 "" _ rfl⟩

/-- **C3, counterexample.** The claim says any `evaluationMode` value
outside the two recognized modes `WORD` and `SENTENCE` fails before any
network request; but the SDK uppercases the value first
(`index.js` line 42), so the outside value `"word"` is accepted and the
request is issued. -/
theorem c3_counterexample :
    "word" ≠ "WORD" ∧ "word" ≠ "SENTENCE" ∧
    (UnifiedSDK.evaluate ""
      { referenceText := some "Hello", userAudio := some ⟨5⟩,
        evaluationMode := some "word", voiceType := some 2 }).isOk = true := by
  refine ⟨by decide, by decide, rfl⟩

/-- **C3, amended.** An evaluation mode whose uppercased form is outside
the two recognized modes `WORD` and `SENTENCE` causes the unified SDK's
`evaluate` to fail with an error before any network request (recognized
values are matched case-insensitively), and an absent evaluation mode
defaults to `WORD`. -/
theorem c3_mode_validation :
    (∀ (b : String) (p : UnifiedPayload) (m : String), p.evaluationMode = some m →
      jsToUpper (if m = "" then "WORD" else m) ≠ "WORD" →
      jsToUpper (if m = "" then "WORD" else m) ≠ "SENTENCE" →
      (UnifiedSDK.evaluate b p).isOk = false) ∧
    (∀ (b rt : String) (ua : JsBlob), rt ≠ "" →
      UnifiedSDK.evaluate b
        { referenceText := some rt, userAudio := some ua,
          evaluationMode := none, voiceType := none } =
      Except.ok
        { url := evaluateUrl b, reference_text := rt, user_audio := ua,
          evaluation_mode := "WORD", voice_type := "2" }) := by
  constructor
  · intro b p m hm h1 h2
    simp only [UnifiedSDK.evaluate, hm]
    split
    · rfl
    · split
      · rfl
      · split
        · rfl
        · rw [if_pos ⟨h1, h2⟩]
          rfl
  · intro b rt ua h
    simp only [UnifiedSDK.evaluate]
    rw [if_neg (by simp [jsStrFalsy, h]), if_neg (by simp), if_neg (by decide),
      if_neg (by decide)]
    rfl

/-- Witness for C3 at concrete inputs. -/
theorem c3_mode_validation_witness :
    (UnifiedSDK.evaluate ""
      { referenceText := some "Hi", userAudio := some ⟨3⟩,
        evaluationMode := some "LEGACY", voiceType := some 1 }).isOk = false ∧
    UnifiedSDK.evaluate ""
      { referenceText := some "Hi", userAudio := some ⟨3⟩,
        evaluationMode := none, voiceType := none } =
      Except.ok
        { url := evaluateUrl "", reference_text := "Hi", user_audio := ⟨3⟩,
          evaluation_mode := "WORD", voice_type := "2" } :=
  ⟨c3_mode_validation.1 "" _ "LEGACY" rfl (by decide) (by decide),
   c3_mode_validation.2 "" "Hi" ⟨3⟩ (by decide)⟩

/-- **C4, counterexample.** The claim says each SDK's `evaluate` applies
the same non-empty-with-fallback contract (`"Hello"`) to its
`referenceText` argument; but the unified SDK rejects an empty reference
text with a thrown error (`index.js` lines 32–34), and the legacy SDK
submits the empty string, not `"Hello"` (`part_000` line 35). -/
theorem c4_counterexample :
    UnifiedSDK.evaluate ""
      { referenceText := some "", userAudio := some ⟨4⟩,
        evaluationMode := some "WORD", voiceType := some 2 } =
      Except.error "缺少 referenceText 字段" ∧
    (∃ r, LegacySDK.evaluate ""
      { referenceText := none, referenceAudio := some ⟨4⟩, userAudio := some ⟨4⟩ } =
        Except.ok r ∧ r.reference_text = "" ∧ r.reference_text ≠ "Hello") := by
  exact ⟨rfl, ⟨_, rfl, rfl, by decide⟩⟩

/-- **C4, amended.** Only the frontend applies the `"Hello"` fallback: a
reference text that is blank after trimming is submitted as `"Hello"`
(`App.jsx` line 109).  The unified SDK instead rejects an empty or
absent `referenceText` with an error before any network call, and the
legacy SDK forwards the reference text unchanged — the empty string when
absent. -/
theorem c4_reference_text_fallback :
    (∀ (b : String) (s : SubmitState) (ra ua : JsBlob),
      s.referenceAudio = some ra → s.userAudio = some ua → jsTrim s.referenceText = "" →
      handleSubmit b s =
        SubmitOutcome.submitted
          { url := evaluateUrl b, reference_text := "Hello",
            reference_audio := ra, user_audio := ua }) ∧
    (∀ (b : String) (p : UnifiedPayload), jsStrFalsy p.referenceText = true →
      UnifiedSDK.evaluate b p = Except.error "缺少 referenceText 字段") ∧
    (∀ (b : String) (p : LegacyPayload) (ra ua : JsBlob),
      p.referenceText = none → p.referenceAudio = some ra → p.userAudio = some ua →
      LegacySDK.evaluate b p =
        Except.ok
          { url := evaluateUrl b, reference_text := "",
            reference_audio := ra, user_audio := ua }) := by
  refine ⟨?_, ?_, ?_⟩
  · intro b s ra ua hra hua htrim
    simp only [handleSubmit, hra, hua, htrim]
    rfl
  · intro b p h
    simp only [UnifiedSDK.evaluate, h]
    rfl
  · intro b p ra ua hrt hra hua
    simp only [LegacySDK.evaluate, hrt, hra, hua]
    rfl

/-- Witness for the amended C4 at concrete inputs. -/
theorem c4_reference_text_fallback_witness :
    handleSubmit ""
      { referenceText := "  ", referenceAudio := some ⟨7⟩, userAudio := some ⟨8⟩ } =
      SubmitOutcome.submitted
        { url := evaluateUrl "", reference_text := "Hello",
          reference_audio := ⟨7⟩, user_audio := ⟨8⟩ } ∧
    UnifiedSDK.evaluate ""
      { referenceText := none, userAudio := some ⟨4⟩,
        evaluationMode := none, voiceType := none } =
      Except.error "缺少 referenceText 字段" ∧
    LegacySDK.evaluate ""
      { referenceText := none, referenceAudio := some ⟨4⟩, userAudio := some ⟨5⟩ } =
      Except.ok
        { url := evaluateUrl "", reference_text := "",
          reference_audio := ⟨4⟩, user_audio := ⟨5⟩ } :=
  ⟨c4_reference_text_fallback.1 "" _ ⟨7⟩ ⟨8⟩ rfl rfl (by decide),
   c4_reference_text_fallback.2.1 "" _ rfl,
   c4_reference_text_fallback.2.2 "" _ ⟨4⟩ ⟨5⟩ rfl rfl rfl⟩

/-- **C8.** The unified SDK's voice variant selector accepts exactly the
values 1 and 2, defaults to 2 when absent, and any other value causes
`evaluate` to fail with an error before any network request. -/
theorem c8_voice_type_validation :
    (∀ (b : String) (p : UnifiedPayload) (v : Int), p.voiceType = some v →
      v ≠ 1 → v ≠ 2 → (UnifiedSDK.evaluate b p).isOk = false) ∧
    (∀ (b rt : String) (ua : JsBlob), rt ≠ "" →
      UnifiedSDK.evaluate b
        { referenceText := some rt, userAudio := some ua,
          evaluationMode := none, voiceType := none } =
      Except.ok
        { url := evaluateUrl b, reference_text := rt, user_audio := ua,
          evaluation_mode := "WORD", voice_type := "2" }) ∧
    (∀ (b rt : String) (ua : JsBlob) (v : Int), rt ≠ "" → (v = 1 ∨ v = 2) →
      UnifiedSDK.evaluate b
        { referenceText := some rt, userAudio := some ua,
          evaluationMode := none, voiceType := some v } =
      Except.ok
        { url := evaluateUrl b, reference_text := rt, user_audio := ua,
          evaluation_mode := "WORD", voice_type := toString v }) := by
  refine ⟨?_, c3_mode_validation.2, ?_⟩
  · intro b p v hv h1 h2
    simp only [UnifiedSDK.evaluate, hv]
    split
    · rfl
    · split
      · rfl
      · rw [if_pos ⟨h1, h2⟩]
        rfl
  · intro b rt ua v h hv
    simp only [UnifiedSDK.evaluate]
    rw [if_neg (by simp [jsStrFalsy, h]), if_neg (by simp),
      if_neg (by rcases hv with h | h <;> simp [h]), if_neg (by decide)]
    rfl

/-- Witness for C8 at concrete inputs. -/
theorem c8_voice_type_validation_witness :
    (UnifiedSDK.evaluate ""
      { referenceText := some "Hi", userAudio := some ⟨3⟩,
        evaluationMode := none, voiceType := some 3 }).isOk = false ∧
    UnifiedSDK.evaluate ""
      { referenceText := some "Ok", userAudio := some ⟨6⟩,
        evaluationMode := none, voiceType := none } =
      Except.ok
        { url := evaluateUrl "", reference_text := "Ok", user_audio := ⟨6⟩,
          evaluation_mode := "WORD", voice_type := "2" } ∧
    UnifiedSDK.evaluate ""
      { referenceText := some "Ok", userAudio := some ⟨6⟩,
        evaluationMode := none, voiceType := some 1 } =
      Except.ok
        { url := evaluateUrl "", reference_text := "Ok", user_audio := ⟨6⟩,
          evaluation_mode := "WORD", voice_type := toString (1 : Int) } :=
  ⟨c8_voice_type_validation.1 "" _ 3 rfl (by decide) (by decide),
   c8_voice_type_validation.2.1 "" "Ok" ⟨6⟩ (by decide),
   c8_voice_type_validation.2.2 "" "Ok" ⟨6⟩ 1 (by decide) (Or.inl rfl)⟩

/-- **C10.** For every HTTP response whose `ok` flag is false, the SDK's
`evaluate` never returns a result: it throws an `Error` whose message is
the body's `detail` field when the body parses as JSON with a truthy
`detail`, and the fixed fallback `"请求失败"` otherwise (including when
the body is not valid JSON); a result is returned only from
`response.json()` of an `ok` response. -/
theorem c10_error_response_handling :
    (∀ (r : HttpResponse), r.ok = false → ∀ v, handleResponse r ≠ Except.ok v) ∧
    (∀ (r : HttpResponse) (b : JsonBody) (d : String), r.ok = false →
      r.body = some b → b.detail = some d → d ≠ "" →
      handleResponse r = Except.error d) ∧
    (∀ (r : HttpResponse), r.ok = false →
      (r.body = none ∨ r.body = some ⟨none⟩ ∨ r.body = some ⟨some ""⟩) →
      handleResponse r = Except.error "请求失败") ∧
    (∀ (r : HttpResponse) (v : JsonBody), handleResponse r = Except.ok v →
      r.ok = true ∧ r.body = some v) := by
  refine ⟨?_, ?_, ?_, ?_⟩
  · intro r h v
    simp only [handleResponse, h]
    exact fun hc => by cases hc
  · intro r b d h hb hd hne
    simp only [handleResponse, h, hb, hd, if_neg hne]
    simp
  · intro r h hb
    rcases hb with hb | hb | hb <;> simp only [handleResponse, h, hb, if_pos rfl] <;> rfl
  · intro r v h
    unfold handleResponse at h
    split at h
    · cases h
    · rename_i hok
      constructor
      · cases hr : r.ok
        · exact absurd hr hok
        · rfl
      · split at h
        · cases h
        · rename_i b hb
          cases h
          exact hb

/-- Witness for C10 at concrete inputs. -/
theorem c10_error_response_handling_witness :
    (∀ v, handleResponse ⟨false, some ⟨some "参考音频下载失败"⟩⟩ ≠ Except.ok v) ∧
    handleResponse ⟨false, some ⟨some "参考音频下载失败"⟩⟩ =
      Except.error "参考音频下载失败" ∧
    handleResponse ⟨false, none⟩ = Except.error "请求失败" ∧
    (handleResponse ⟨true, some ⟨none⟩⟩ = Except.ok ⟨none⟩ →
      (⟨true, some ⟨none⟩⟩ : HttpResponse).ok = true ∧
      (⟨true, some ⟨none⟩⟩ : HttpResponse).body = some ⟨none⟩) :=
  ⟨c10_error_response_handling.1 _ rfl,
   c10_error_response_handling.2.1 _ ⟨some "参考音频下载失败"⟩ _ rfl rfl rfl (by decide),
   c10_error_response_handling.2.2.1 _ rfl (Or.inl rfl),
   c10_error_response_handling.2.2.2 _ ⟨none⟩⟩

/-- **C5.** The absence of Whisper or any ASR backend only omits the
transcript from the result and is never an error: the engine's outcome
(success or failure) and every numeric field are independent of the
optional transcript input, a successful result carries exactly that
optional transcript, and the frontend renders the non-error fallback
note when the transcript is absent. -/
theorem c5_transcript_additive (mode : Mode) (text : String)
    (refSig userSig : AudioSignal) (asr : Option Transcript) :
    (engineEvaluate mode text refSig userSig asr).isOk =
      (engineEvaluate mode text refSig userSig none).isOk ∧
    (engineEvaluate mode text refSig userSig asr).map (fun r => r.word_result) =
      (engineEvaluate mode text refSig userSig none).map (fun r => r.word_result) ∧
    (engineEvaluate mode text refSig userSig asr).map (fun r => r.sentence_result) =
      (engineEvaluate mode text refSig userSig none).map (fun r => r.sentence_result) ∧
    (engineEvaluate mode text refSig userSig asr).map (fun r => r.transcript) =
      (engineEvaluate mode text refSig userSig asr).map (fun _ => asr) ∧
    renderTranscript none = TranscriptView.whisperFallbackNote := by
  refine ⟨?_, ?_, ?_, ?_, rfl⟩ <;>
    · unfold engineEvaluate
      split
      · rfl
      · split
        · rfl
        · split <;> try rfl
          split <;> cases mode <;> rfl

/-! ## Helper lemmas for the unit-count and score-bound claims -/

theorem length_unitRanges (units : List String) (f : Nat) :
    (unitRanges units f).length = units.length := by
  simp only [unitRanges, List.length_map, List.length_zip, List.length_tail,
    List.length_scanl]
  omega

theorem length_scoreAllUnits (refF candF : List FeatureFrame)
    (path : List (Nat × Nat)) (units : List String) :
    (scoreAllUnits refF candF path units).length = units.length := by
  simp [scoreAllUnits, length_unitRanges]

/-- A score lying in the closed interval `[0, 100]`. -/
def ScoreBounded (x : ℚ) : Prop := 0 ≤ x ∧ x ≤ 100

theorem clampScore_bounded (x : ℚ) : ScoreBounded (clampScore x) :=
  ⟨le_max_left 0 _, max_le (by norm_num) (min_le_left 100 x)⟩

theorem invDistScore_bounded (m : ℚ) : ScoreBounded (invDistScore m) :=
  clampScore_bounded _

theorem ratioTermScore_bounded (a b : ℚ) : ScoreBounded (ratioTermScore a b) := by
  unfold ratioTermScore
  split
  · exact ⟨le_refl 0, by norm_num⟩
  · split
    · exact ⟨le_refl 0, by norm_num⟩
    · exact clampScore_bounded _

theorem mfccTerm_bounded (refF candF : List FeatureFrame)
    (pairs : List (Nat × Nat)) : ScoreBounded (mfccTerm refF candF pairs) := by
  unfold mfccTerm
  split
  · exact ⟨le_refl 0, by norm_num⟩
  · exact invDistScore_bounded _

theorem energyTerm_bounded (refSlice candSlice : List FeatureFrame) :
    ScoreBounded (energyTerm refSlice candSlice) := by
  unfold energyTerm
  split
  · exact ratioTermScore_bounded _ _
  · exact ⟨le_refl 0, by norm_num⟩

theorem durationTerm_bounded (refLen candLen : Nat) :
    ScoreBounded (durationTerm refLen candLen) :=
  ratioTermScore_bounded _ _

theorem pitchTerm_bounded (refF candF : List FeatureFrame)
    (pairs : List (Nat × Nat)) : ScoreBounded (pitchTerm refF candF pairs) := by
  simp only [pitchTerm]
  split
  · exact ⟨le_refl 0, by norm_num⟩
  · exact invDistScore_bounded _

theorem weighted4_bounded {a b c d : ℚ} (ha : ScoreBounded a) (hb : ScoreBounded b)
    (hc : ScoreBounded c) (hd : ScoreBounded d) : ScoreBounded (weighted4 a b c d) := by
  unfold weighted4 wMfcc wEnergy wDuration wPitch
  exact ⟨by linarith [ha.1, hb.1, hc.1, hd.1], by linarith [ha.2, hb.2, hc.2, hd.2]⟩

theorem scoreUnit_bounded (refF candF : List FeatureFrame) (path : List (Nat × Nat))
    (sym : String) (r : Nat × Nat) : ScoreBounded (scoreUnit refF candF path sym r).score := by
  unfold scoreUnit
  split
  · exact ⟨le_refl 0, by norm_num [minScore]⟩
  · exact weighted4_bounded (mfccTerm_bounded _ _ _) (energyTerm_bounded _ _)
      (durationTerm_bounded _ _) (pitchTerm_bounded _ _ _)

/-- Every score field of an `EvaluationResult` lies in `[0, 100]`. -/
def ResultBounded (r : EvaluationResult) : Prop :=
  (∀ wr ∈ r.word_result,
    (∀ u ∈ wr.character_scores, ScoreBounded u.score) ∧
    ScoreBounded wr.mfcc_score ∧ ScoreBounded wr.energy_score ∧
    ScoreBounded wr.pitch_score ∧ ScoreBounded wr.composite_score ∧
    ScoreBounded wr.overall_score) ∧
  (∀ sr ∈ r.sentence_result,
    (∀ u ∈ sr.word_scores, ScoreBounded u.score) ∧
    ScoreBounded sr.pronunciation_score ∧ ScoreBounded sr.fluency_score ∧
    ScoreBounded sr.word_total_score ∧ ScoreBounded sr.overall_score)

theorem mem_scoreAllUnits_bounded (refF candF : List FeatureFrame)
    (path : List (Nat × Nat)) (units : List String) :
    ∀ u ∈ scoreAllUnits refF candF path units, ScoreBounded u.score := by
  intro u hu
  unfold scoreAllUnits at hu
  rcases List.mem_map.mp hu with ⟨ur, _, hur⟩
  exact hur ▸ scoreUnit_bounded _ _ _ _ _

theorem wordResult_bounded (text : String) (refF candF : List FeatureFrame)
    (path : List (Nat × Nat)) :
    (∀ u ∈ (wordResult text refF candF path).character_scores, ScoreBounded u.score) ∧
    ScoreBounded (wordResult text refF candF path).mfcc_score ∧
    ScoreBounded (wordResult text refF candF path).energy_score ∧
    ScoreBounded (wordResult text refF candF path).pitch_score ∧
    ScoreBounded (wordResult text refF candF path).composite_score ∧
    ScoreBounded (wordResult text refF candF path).overall_score := by
  have hm := mfccTerm_bounded refF candF path
  have he := energyTerm_bounded refF candF
  have hp := pitchTerm_bounded refF candF path
  have hd := durationTerm_bounded refF.length candF.length
  refine ⟨mem_scoreAllUnits_bounded _ _ _ _, hm, he, hp,
    weighted4_bounded hm he hd hp, ?_⟩
  unfold wordResult wOverallMfcc wOverallEnergy wOverallPitch
  exact ⟨by linarith [hm.1, he.1, hp.1], by linarith [hm.2, he.2, hp.2]⟩

theorem sentenceResult_bounded (text : String) (refF candF : List FeatureFrame)
    (path : List (Nat × Nat)) :
    (∀ u ∈ (sentenceResult text refF candF path).word_scores, ScoreBounded u.score) ∧
    ScoreBounded (sentenceResult text refF candF path).pronunciation_score ∧
    ScoreBounded (sentenceResult text refF candF path).fluency_score ∧
    ScoreBounded (sentenceResult text refF candF path).word_total_score ∧
    ScoreBounded (sentenceResult text refF candF path).overall_score := by
  have hpron : ScoreBounded (sentenceResult text refF candF path).pronunciation_score := by
    simp only [sentenceResult]
    split
    · exact ⟨le_refl 0, by norm_num⟩
    · exact clampScore_bounded _
  have hflu : ScoreBounded (sentenceResult text refF candF path).fluency_score := by
    simp only [sentenceResult]
    split
    · exact ⟨le_refl 0, by norm_num⟩
    · exact invDistScore_bounded _
  have hcov : ScoreBounded (sentenceResult text refF candF path).word_total_score := by
    simp only [sentenceResult]
    split
    · exact ⟨le_refl 0, by norm_num⟩
    · exact clampScore_bounded _
  refine ⟨mem_scoreAllUnits_bounded _ _ _ _, hpron, hflu, hcov, ?_⟩
  have hov : (sentenceResult text refF candF path).overall_score =
      wPron * (sentenceResult text refF candF path).pronunciation_score +
      wFluency * (sentenceResult text refF candF path).fluency_score +
      wCoverage * (sentenceResult text refF candF path).word_total_score := rfl
  rw [hov]
  unfold wPron wFluency wCoverage
  exact ⟨by linarith [hpron.1, hflu.1, hcov.1], by linarith [hpron.2, hflu.2, hcov.2]⟩

/-- **C1.** Every score the engine returns — each unit-level score and
every aggregate (`mfcc_score`, `energy_score`, `pitch_score`,
`composite_score`, `overall_score`, `pronunciation_score`,
`fluency_score`, `word_total_score`) — lies in the closed interval
`[0, 100]`; an undefined intermediate ratio (a division by a zero
duration, count or total) is `none` in the model and is absorbed as a
score of 0 for that term, never propagated to the caller. -/
theorem c1_scores_bounded (mode : Mode) (text : String)
    (refF candF : List FeatureFrame) (path : List (Nat × Nat)) (asr : Option Transcript) :
    ResultBounded (assembleScores mode text refF candF path asr) ∧
    (∀ a : ℚ, safeDiv a 0 = none) ∧
    (∀ c : Nat, durationTerm 0 c = 0) ∧
    (∀ rf cf : List FeatureFrame, mfccTerm rf cf [] = 0) := by
  refine ⟨?_, fun a => by simp [safeDiv], fun c => by simp [durationTerm, ratioTermScore, safeDiv],
    fun rf cf => by simp [mfccTerm, meanQ, safeDiv]⟩
  cases mode
  · refine ⟨?_, ?_⟩
    · intro wr hwr
      have h : wordResult text refF candF path = wr := by
        simpa [assembleScores] using hwr
      rw [← h]
      exact wordResult_bounded text refF candF path
    · intro sr hsr
      simp [assembleScores] at hsr
  · refine ⟨?_, ?_⟩
    · intro wr hwr
      simp [assembleScores] at hwr
    · intro sr hsr
      have h : sentenceResult text refF candF path = sr := by
        simpa [assembleScores] using hsr
      rw [← h]
      exact sentenceResult_bounded text refF candF path

/-- **C7.** The number of UnitScores in a result equals the number of
ScoringUnits derived from the reference text, and a unit whose reference
range projects to an empty candidate set receives the sentinel empty
range and the minimum score rather than being dropped. -/
theorem c7_unit_count_invariant :
    (∀ (text : String) (refF candF : List FeatureFrame) (path : List (Nat × Nat)),
      (wordResult text refF candF path).character_scores.length =
        (splitUnits Mode.WORD text).length) ∧
    (∀ (text : String) (refF candF : List FeatureFrame) (path : List (Nat × Nat)),
      (sentenceResult text refF candF path).word_scores.length =
        (splitUnits Mode.SENTENCE text).length) ∧
    (∀ (refF candF : List FeatureFrame) (path : List (Nat × Nat)) (sym : String)
        (r : Nat × Nat), projectUnit path r = [] →
      scoreUnit refF candF path sym r =
        { symbol := sym, frame_start := 0, frame_end := 0, score := minScore }) := by
  refine ⟨fun text refF candF path => length_scoreAllUnits _ _ _ _,
    fun text refF candF path => length_scoreAllUnits _ _ _ _, ?_⟩
  intro refF candF path sym r h
  unfold scoreUnit
  rw [h]

/-- Witness for C7 at concrete inputs. -/
theorem c7_unit_count_invariant_witness :
    (wordResult "Hello" [] [] [(0, 0)]).character_scores.length =
      (splitUnits Mode.WORD "Hello").length ∧
    scoreUnit [] [] [(0, 0)] "H" (3, 3) =
      { symbol := "H", frame_start := 0, frame_end := 0, score := minScore } :=
  ⟨c7_unit_count_invariant.1 "Hello" [] [] [(0, 0)],
   c7_unit_count_invariant.2.2 [] [] [(0, 0)] "H" (3, 3) (by decide)⟩

/-! ## The alignment-path invariant (C6) -/

/-- The invariant of a backtracked alignment path ending at cell
`(i, j)`: it starts at `(0, 0)`, ends at `(i, j)`, and both index
components are non-decreasing along the sequence. -/
def PathOK (i j : Nat) (l : List (Nat × Nat)) : Prop :=
  l.head? = some (0, 0) ∧ l.getLast? = some (i, j) ∧
  List.Chain' (fun a b : Nat × Nat => a.1 ≤ b.1 ∧ a.2 ≤ b.2) l

theorem pathOK_snoc {i j i' j' : Nat} {l : List (Nat × Nat)} (h : PathOK i j l)
    (h1 : i ≤ i') (h2 : j ≤ j') : PathOK i' j' (l ++ [(i', j')]) := by
  obtain ⟨hh, hl, hc⟩ := h
  have hne : l ≠ [] := by
    intro e
    rw [e] at hh
    cases hh
  refine ⟨?_, ?_, ?_⟩
  · rw [List.head?_append_of_ne_nil _ hne]
    exact hh
  · rw [List.getLast?_append_cons]
    rfl
  · refine List.Chain'.append hc (List.chain'_singleton _) ?_
    intro x hx y hy
    simp only [List.head?_cons, Option.mem_def, Option.some.injEq] at hy
    rw [hl] at hx
    simp only [Option.mem_def, Option.some.injEq] at hx
    subst hx
    subst hy
    exact ⟨h1, h2⟩

theorem backtrack_pathOK (d : Nat → Nat → ℚ) :
    ∀ (n i j : Nat), i + j ≤ n → PathOK i j (backtrack d i j) := by
  intro n
  induction n with
  | zero =>
    intro i j hij
    have hi : i = 0 := by omega
    have hj : j = 0 := by omega
    subst hi
    subst hj
    unfold backtrack
    exact ⟨rfl, rfl, List.chain'_singleton _⟩
  | succ n ih =>
    intro i j hij
    rcases i with _ | i <;> rcases j with _ | j
    · unfold backtrack
      exact ⟨rfl, rfl, List.chain'_singleton _⟩
    · unfold backtrack
      exact pathOK_snoc (ih 0 j (by omega)) (le_refl 0) (Nat.le_succ j)
    · unfold backtrack
      exact pathOK_snoc (ih i 0 (by omega)) (Nat.le_succ i) (le_refl 0)
    · simp only [backtrack]
      split
      · exact pathOK_snoc (ih i j (by omega)) (Nat.le_succ i) (Nat.le_succ j)
      · split
        · exact pathOK_snoc (ih i (j + 1) (by omega)) (Nat.le_succ i) (le_refl (j + 1))
        · exact pathOK_snoc (ih (i + 1) j (by omega)) (le_refl (i + 1)) (Nat.le_succ j)

theorem backtrack_spec (d : Nat → Nat → ℚ) (i j : Nat) :
    PathOK i j (backtrack d i j) :=
  backtrack_pathOK d (i + j) i j (le_refl _)

/-- **C6.** Whenever alignment succeeds, the returned AlignmentPath is an
ordered sequence of (referenceFrameIndex, candidateFrameIndex) pairs in
which both components are non-decreasing from the first pair to the
last, the first pair is `(0, 0)`, and the last pair is
`(lastRef, lastCandidate)`. -/
theorem c6_alignment_path_monotone (refF candF : List FeatureFrame)
    (pr : List (Nat × Nat) × ℚ) (h : dtwAlign refF candF = some pr) :
    pr.1.head? = some (0, 0) ∧
    pr.1.getLast? = some (refF.length - 1, candF.length - 1) ∧
    List.Chain' (fun a b : Nat × Nat => a.1 ≤ b.1 ∧ a.2 ≤ b.2) pr.1 := by
  rcases refF with _ | ⟨a, as⟩
  · simp [dtwAlign] at h
  rcases candF with _ | ⟨b, bs⟩
  · simp [dtwAlign] at h
  simp only [dtwAlign, Option.some.injEq] at h
  rw [← h]
  exact backtrack_spec (frameDist (a :: as) (b :: bs)) ((a :: as).length - 1)
    ((b :: bs).length - 1)

/-- Witness for C6 at a concrete successful alignment. -/
theorem c6_alignment_path_monotone_witness :
    (dtwPath [⟨[1], 1, none⟩] [⟨[1], 1, none⟩]).head? = some (0, 0) ∧
    (dtwPath [⟨[1], 1, none⟩] [⟨[1], 1, none⟩]).getLast? = some (0, 0) ∧
    List.Chain' (fun a b : Nat × Nat => a.1 ≤ b.1 ∧ a.2 ≤ b.2)
      (dtwPath [⟨[1], 1, none⟩] [⟨[1], 1, none⟩]) :=
  c6_alignment_path_monotone [⟨[1], 1, none⟩] [⟨[1], 1, none⟩]
    (dtwPath [⟨[1], 1, none⟩] [⟨[1], 1, none⟩],
      cumCost (frameDist [⟨[1], 1, none⟩] [⟨[1], 1, none⟩]) 0 0) rfl

/-! ## URL normalization (C9) -/

/-- The character list of the pattern `"//api"`. -/
def patApi : List Char := ['/', '/', 'a', 'p', 'i']

/-- The character list of the replacement `"/api"`. -/
def repApi : List Char := ['/', 'a', 'p', 'i']

/-- The character list of the suffix `"/api/evaluate"`. -/
def sApiEval : List Char := ['/', 'a', 'p', 'i', '/', 'e', 'v', 'a', 'l', 'u', 'a', 't', 'e']

theorem patApi_data : "//api".data = patApi := by decide

theorem repApi_data : "/api".data = repApi := by decide

theorem sApiEval_data : "/api/evaluate".data = sApiEval := by decide

/-- Splitting a prefix relation at an append boundary, short side. -/
theorem prefix_split {p x s : List Char} (h : p <+: x ++ s) (hlen : x.length ≤ p.length) :
    x <+: p ∧ p.drop x.length <+: s := by
  obtain ⟨t, ht⟩ := h
  constructor
  · have hx := congrArg (List.take x.length) ht
    rw [List.take_append_of_le_length hlen, List.take_left] at hx
    rw [← hx]
    exact List.take_prefix _ _
  · have hd := congrArg (List.drop x.length) ht
    rw [List.drop_append_of_le_length hlen, List.drop_left] at hd
    exact ⟨t, hd⟩

/-- A pattern that fits inside the left part of an append is a prefix of
that left part. -/
theorem prefix_of_long {p x s : List Char} (h : p <+: x ++ s) (hlen : p.length ≤ x.length) :
    p <+: x := by
  obtain ⟨t, ht⟩ := h
  have hx := congrArg (List.take p.length) ht
  rw [List.take_left, List.take_append_of_le_length hlen] at hx
  rw [hx]
  exact List.take_prefix _ _

/-- `containsSub` decides substring containment. -/
theorem containsSub_eq_true_iff {l pat : List Char} : containsSub l pat = true ↔ pat <:+: l := by
  induction l with
  | nil =>
    simp only [containsSub, List.isEmpty_iff]
    constructor
    · intro h
      rw [h]
    · intro h
      exact List.eq_nil_of_infix_nil h
  | cons c cs ih =>
    simp only [containsSub, Bool.or_eq_true, List.isPrefixOf_iff_prefix, ih,
      List.infix_cons_iff]

/-- If the pattern occurs nowhere, `replaceFirstAux` is the identity. -/
theorem replaceFirstAux_of_not_contains {s pat rep : List Char}
    (h : containsSub s pat = false) : replaceFirstAux s pat rep = s := by
  induction s with
  | nil => rfl
  | cons c cs ih =>
    simp only [containsSub, Bool.or_eq_false_iff] at h
    simp only [replaceFirstAux, h.1, Bool.false_eq_true, if_false]
    rw [ih h.2]

/-- Replacing the first `"//api"` with `"/api"` preserves the
`"/api/evaluate"` suffix of the URL. -/
theorem repl_keeps_suffix :
    ∀ l : List Char, sApiEval <:+ replaceFirstAux (l ++ sApiEval) patApi repApi := by
  intro l
  induction l with
  | nil =>
    rw [List.nil_append, replaceFirstAux_of_not_contains (by decide)]
  | cons c l ih =>
    rw [List.cons_append]
    simp only [replaceFirstAux]
    split
    · rename_i hp
      rw [List.isPrefixOf_iff_prefix] at hp
      rw [← List.cons_append] at hp
      rcases Nat.lt_or_ge (c :: l).length patApi.length with hlt | hge
      · obtain ⟨hpre, hdrop⟩ := prefix_split hp (Nat.le_of_lt hlt)
        rcases l with _ | ⟨x1, l⟩
        · obtain ⟨t, ht⟩ := hpre
          simp only [patApi, List.cons_append, List.nil_append, List.cons.injEq] at ht
          obtain ⟨hc, -⟩ := ht
          subst hc
          rw [show repApi ++ ('/' :: ([] ++ sApiEval)).drop patApi.length = sApiEval from by
            decide]
        · rcases l with _ | ⟨x2, l⟩
          · have hdrop2 : patApi.drop 2 <+: sApiEval := by simpa using hdrop
            exact absurd hdrop2 (by decide)
          · rcases l with _ | ⟨x3, l⟩
            · have hdrop3 : patApi.drop 3 <+: sApiEval := by simpa using hdrop
              exact absurd hdrop3 (by decide)
            · rcases l with _ | ⟨x4, l⟩
              · have hdrop4 : patApi.drop 4 <+: sApiEval := by simpa using hdrop
                exact absurd hdrop4 (by decide)
              · exfalso
                simp [patApi] at hlt
                omega
      · rw [show c :: (l ++ sApiEval) = (c :: l) ++ sApiEval from rfl,
          List.drop_append_of_le_length (by simpa [patApi] using hge)]
        rw [← List.append_assoc]
        exact List.suffix_append _ _
    · exact List.IsSuffix.trans ih (List.suffix_cons c _)

/-- The character list of `"/evaluate"`. -/
def tailEval : List Char := ['/', 'e', 'v', 'a', 'l', 'u', 'a', 't', 'e']

/-- `"//api"` never occurs in `b ++ "/api/evaluate"` when `b` has no
occurrence and does not end in `/`. -/
theorem contains_append_eval_false :
    ∀ b : List Char, b.getLast? ≠ some '/' → containsSub b patApi = false →
      containsSub (b ++ sApiEval) patApi = false := by
  intro b
  induction b with
  | nil =>
    intro _ _
    decide
  | cons c b ih =>
    intro hl hc
    have hcparts : patApi.isPrefixOf (c :: b) = false ∧ containsSub b patApi = false := by
      simpa [containsSub, Bool.or_eq_false_iff] using hc
    have hl' : b.getLast? ≠ some '/' := by
      rcases b with _ | ⟨d, bs⟩
      · simp
      · rw [List.getLast?_cons_cons] at hl
        exact hl
    have ihs := ih hl' hcparts.2
    rw [List.cons_append]
    simp only [containsSub, ihs, Bool.or_false]
    cases hb : patApi.isPrefixOf (c :: (b ++ sApiEval)) with
    | false => rfl
    | true =>
      exfalso
      rw [List.isPrefixOf_iff_prefix] at hb
      rw [← List.cons_append] at hb
      rcases Nat.lt_or_ge (c :: b).length patApi.length with hlt | hge
      · obtain ⟨hpre, hdrop⟩ := prefix_split hb (Nat.le_of_lt hlt)
        rcases b with _ | ⟨x1, b⟩
        · obtain ⟨t, ht⟩ := hpre
          simp only [patApi, List.cons_append, List.nil_append, List.cons.injEq] at ht
          exact hl (by simp [ht.1])
        · rcases b with _ | ⟨x2, b⟩
          · have h2 : patApi.drop 2 <+: sApiEval := by simpa using hdrop
            exact absurd h2 (by decide)
          · rcases b with _ | ⟨x3, b⟩
            · have h3 : patApi.drop 3 <+: sApiEval := by simpa using hdrop
              exact absurd h3 (by decide)
            · rcases b with _ | ⟨x4, b⟩
              · have h4 : patApi.drop 4 <+: sApiEval := by simpa using hdrop
                exact absurd h4 (by decide)
              · simp [patApi] at hlt
                omega
      · have hin : patApi <+: (c :: b) := prefix_of_long hb hge
        have hcontra : containsSub (c :: b) patApi = true :=
          containsSub_eq_true_iff.mpr (List.IsPrefix.isInfix hin)
        rw [hc] at hcontra
        cases hcontra

/-- When no earlier position matches, `replaceFirstAux` rewrites exactly
the `"//api"` occurrence at the append boundary. -/
theorem replaceFirstAux_late (t : List Char) :
    ∀ x : List Char,
      (∀ x₂, x₂ ≠ [] → x₂ <:+ x → patApi.isPrefixOf (x₂ ++ (patApi ++ t)) = false) →
      replaceFirstAux (x ++ (patApi ++ t)) patApi repApi = x ++ (repApi ++ t) := by
  intro x
  induction x with
  | nil =>
    intro _
    rw [List.nil_append, List.nil_append]
    show replaceFirstAux ('/' :: ('/' :: 'a' :: 'p' :: 'i' :: t)) patApi repApi = repApi ++ t
    simp only [replaceFirstAux]
    rw [if_pos]
    · simp [patApi, repApi]
    · rw [List.isPrefixOf_iff_prefix]
      exact ⟨t, by simp [patApi]⟩
  | cons c x ih =>
    intro hno
    have h1 : patApi.isPrefixOf ((c :: x) ++ (patApi ++ t)) = false :=
      hno (c :: x) (by simp) (List.suffix_refl _)
    rw [List.cons_append]
    simp only [replaceFirstAux]
    rw [List.cons_append] at h1
    rw [h1]
    simp only [Bool.false_eq_true, if_false]
    rw [ih (fun x₂ hne hs => hno x₂ hne (hs.trans (List.suffix_cons c x)))]
    rfl

/-- Dropping a final character cannot create a `"//api"` occurrence. -/
theorem containsSub_dropLast_false {b : List Char} {c : Char}
    (h : containsSub (b ++ [c]) patApi = false) : containsSub b patApi = false := by
  cases hb : containsSub b patApi with
  | false => rfl
  | true =>
    exfalso
    have hinf : patApi <:+: b ++ [c] :=
      List.IsInfix.trans (containsSub_eq_true_iff.mp hb)
        (List.IsPrefix.isInfix (List.prefix_append b [c]))
    rw [← containsSub_eq_true_iff, h] at hinf
    cases hinf

/-- The final URL contains no `"//api"` when the stripped base URL has no
`"//api"` occurrence and does not end in `"//"`. -/
theorem no_new_dslash (b : List Char)
    (h1 : containsSub b patApi = false)
    (h2 : ¬ (['/', '/'] <:+ b)) :
    containsSub (replaceFirstAux (b ++ sApiEval) patApi repApi) patApi = false := by
  by_cases hl : b.getLast? = some '/'
  · obtain ⟨b2, rfl⟩ := List.getLast?_eq_some_iff.mp hl
    have hb2c : containsSub b2 patApi = false := containsSub_dropLast_false h1
    have hb2l : b2.getLast? ≠ some '/' := by
      intro he
      obtain ⟨b0, rfl⟩ := List.getLast?_eq_some_iff.mp he
      exact h2 ⟨b0, by simp⟩
    have hsplit : (b2 ++ ['/']) ++ sApiEval = b2 ++ (patApi ++ tailEval) := by
      rw [List.append_assoc]
      congr 1
    rw [hsplit, replaceFirstAux_late tailEval b2 ?hno]
    · rw [show repApi ++ tailEval = sApiEval from by decide]
      exact contains_append_eval_false b2 hb2l hb2c
    case hno =>
      intro x2 hne hs
      cases hb : patApi.isPrefixOf (x2 ++ (patApi ++ tailEval)) with
      | false => rfl
      | true =>
        exfalso
        rw [List.isPrefixOf_iff_prefix] at hb
        rcases Nat.lt_or_ge x2.length patApi.length with hlt | hge
        · obtain ⟨hpre, hdrop⟩ := prefix_split hb (Nat.le_of_lt hlt)
          rcases x2 with _ | ⟨y1, x2⟩
          · exact hne rfl
          · rcases x2 with _ | ⟨y2, x2⟩
            · have hd : patApi.drop 1 <+: patApi ++ tailEval := by simpa using hdrop
              exact absurd hd (by decide)
            · rcases x2 with _ | ⟨y3, x2⟩
              · have hd : patApi.drop 2 <+: patApi ++ tailEval := by simpa using hdrop
                exact absurd hd (by decide)
              · rcases x2 with _ | ⟨y4, x2⟩
                · have hd : patApi.drop 3 <+: patApi ++ tailEval := by simpa using hdrop
                  exact absurd hd (by decide)
                · rcases x2 with _ | ⟨y5, x2⟩
                  · have hd : patApi.drop 4 <+: patApi ++ tailEval := by simpa using hdrop
                    exact absurd hd (by decide)
                  · simp [patApi] at hlt
                    omega
        · have hin : patApi <+: x2 := prefix_of_long hb hge
          have hcontra : containsSub b2 patApi = true :=
            containsSub_eq_true_iff.mpr
            (List.IsInfix.trans (List.IsPrefix.isInfix hin) (List.IsSuffix.isInfix hs))
          rw [hb2c] at hcontra
          cases hcontra
  · rw [replaceFirstAux_of_not_contains (contains_append_eval_false b hl h1)]
    exact contains_append_eval_false b hl h1

theorem evaluateUrl_data (b : String) :
    (evaluateUrl b).data = replaceFirstAux (b.data ++ sApiEval) patApi repApi := by
  simp only [evaluateUrl, jsReplaceFirst, String.data_append, sApiEval_data,
    patApi_data, repApi_data]
  rfl

/-- **C9, counterexample.** The claim says the URL never contains
`"//api"` for any `baseUrl`; but the constructor strips only one
trailing slash and `evaluate` replaces only the first `"//api"`, so
`baseUrl = "x///"` yields the URL `"x//api/evaluate"`. -/
theorem c9_counterexample :
    jsIncludes (evaluateUrl (mkBaseUrl (some "x///"))) "//api" = true ∧
    evaluateUrl (mkBaseUrl (some "x///")) = "x//api/evaluate" := by
  constructor
  · decide
  · decide

/-- **C9, amended.** For every `baseUrl` option passed to the
constructor (including the absent default and values with a trailing
slash), the URL handed to `fetch` ends with `"/api/evaluate"`; and
whenever the stripped base URL neither contains `"//api"` nor ends with
`"//"` — which holds for the empty default, ordinary http(s) origins and
single-trailing-slash values — the URL does not contain `"//api"`. -/
theorem c9_url_shape (baseUrl : Option String) :
    "/api/evaluate".data <:+ (evaluateUrl (mkBaseUrl baseUrl)).data ∧
    (jsIncludes (mkBaseUrl baseUrl) "//api" = false →
      ¬ ("//".data <:+ (mkBaseUrl baseUrl).data) →
      jsIncludes (evaluateUrl (mkBaseUrl baseUrl)) "//api" = false) := by
  constructor
  · rw [evaluateUrl_data, sApiEval_data]
    exact repl_keeps_suffix (mkBaseUrl baseUrl).data
  · intro h1 h2
    rw [jsIncludes, evaluateUrl_data, patApi_data]
    refine no_new_dslash (mkBaseUrl baseUrl).data ?_ ?_
    · rw [jsIncludes, patApi_data] at h1
      exact h1
    · intro hsuf
      exact h2 (by rw [show "//".data = ['/', '/'] from by decide]; exact hsuf)

/-- Witness for the amended C9 at a concrete base URL. -/
theorem c9_url_shape_witness :
    "/api/evaluate".data <:+
      (evaluateUrl (mkBaseUrl (some "http://localhost:8000"))).data ∧
    jsIncludes (evaluateUrl (mkBaseUrl (some "http://localhost:8000"))) "//api" = false :=
  ⟨(c9_url_shape (some "http://localhost:8000")).1,
   (c9_url_shape (some "http://localhost:8000")).2 (by decide) (by decide)⟩
